import Mathlib

/-!
# Verification of the options-chain analytics core

A shallow embedding of the numerical core of the `polygon_options_viewer`
repository (`src/utils/data_formatter.py`, `src/utils/polygon_api.py`, and the
computation blocks of `src/app.py`), together with proofs settling the claims
of the specification.

Python floats are modelled as exact rationals (`ℚ`) for the chain-level
bookkeeping functions and as real numbers (`ℝ`) for the Black-Scholes
evaluator; `round(x, n)` is modelled as exact round-half-to-even on the scaled
value, which agrees with CPython on every value whose scaled form is exactly
representable (all concrete inputs used below are of this kind).
-/

namespace OptionsViewer

/-- Option contract type; models the `'call'` / `'put'` strings used
throughout the Python source. -/
inductive OptionType where
  | call
  | put
  deriving DecidableEq

/-- Round-half-to-even to an integer, the tie-breaking rule of Python's
built-in `round`. -/
def roundHalfEven (y : ℚ) : ℤ :=
  let f := ⌊y⌋
  if y - f < 1/2 then f
  else if 1/2 < y - f then f + 1
  else if f % 2 = 0 then f else f + 1

/-- Python `round(y, d)`: round-half-to-even at `d` decimal places. -/
def pyRound (y : ℚ) (d : ℕ) : ℚ :=
  (roundHalfEven (y * 10 ^ d) : ℚ) / 10 ^ d

/-- `data_formatter.estimate_bid_ask_spread` (src/utils/data_formatter.py,
lines 124-154).  The `option_type` argument of the Python function is unused
there and omitted here.  Volume is an integer; prices are rationals. -/
def estimate_bid_ask_spread (last_price : ℚ) (volume : ℤ) : ℚ × ℚ :=
  if last_price ≤ 0 then (0, 0)
  else
    let spread_pct : ℚ :=
      if 10000 < volume then 2/100
      else if 1000 < volume then 4/100
      else if 100 < volume then 8/100
      else if 10 < volume then 15/100
      else 25/100
    let half_spread := last_price * spread_pct / 2
    (max (1/100) (pyRound (last_price - half_spread) 2),
     pyRound (last_price + half_spread) 2)

/-- Result record of `calculate_moneyness`. -/
structure MoneynessInfo where
  moneyness_pct : ℚ
  is_itm : Bool
  is_atm : Bool
  is_otm : Bool
  intrinsic_value : ℚ
  deriving DecidableEq

/-- `data_formatter.calculate_moneyness` (src/utils/data_formatter.py,
lines 156-196), with the hard-coded `atm_threshold = 0.5` percent. -/
def calculate_moneyness (stock_price strike : ℚ) (ty : OptionType) :
    MoneynessInfo :=
  if stock_price ≤ 0 ∨ strike ≤ 0 then
    ⟨0, false, false, false, 0⟩
  else
    let moneyness_pct := (stock_price - strike) / stock_price * 100
    match ty with
    | .call =>
      let is_itm := decide (strike * (1 + (1/2)/100) < stock_price)
      let is_otm := decide (stock_price < strike * (1 - (1/2)/100))
      ⟨moneyness_pct, is_itm, !is_itm && !is_otm, is_otm,
        max 0 (stock_price - strike)⟩
    | .put =>
      let is_itm := decide (stock_price < strike * (1 - (1/2)/100))
      let is_otm := decide (strike * (1 + (1/2)/100) < stock_price)
      ⟨moneyness_pct, is_itm, !is_itm && !is_otm, is_otm,
        max 0 (strike - stock_price)⟩

/-- One row of an option chain, restricted to the columns the aggregation
claims are about (`type`, `volume`, `open_interest`). -/
structure ChainRow where
  ty : OptionType
  volume : ℤ
  open_interest : ℤ
  deriving DecidableEq

/-- The fields of the dictionary returned by `aggregate_option_metrics` that
the claims are about (the optional implied-volatility averages, which depend
on a column that may be absent, are not modelled). -/
structure AggMetrics where
  total_call_volume : ℤ
  total_put_volume : ℤ
  total_call_oi : ℤ
  total_put_oi : ℤ
  pc_ratio_volume : ℚ
  pc_ratio_oi : ℚ
  num_contracts : ℕ
  deriving DecidableEq

/-- `data_formatter.aggregate_option_metrics` (src/utils/data_formatter.py,
lines 198-259): volume/open-interest totals per type and the put/call ratios,
which the source sets to `0` whenever the corresponding call total is not
positive, then rounds to 2 decimal places. -/
def aggregate_option_metrics (option_chain : List ChainRow) : AggMetrics :=
  if option_chain = [] then ⟨0, 0, 0, 0, 0, 0, 0⟩
  else
    let calls := option_chain.filter (fun r => r.ty == OptionType.call)
    let puts := option_chain.filter (fun r => r.ty == OptionType.put)
    let total_call_volume : ℤ := (calls.map (fun r => r.volume)).sum
    let total_put_volume : ℤ := (puts.map (fun r => r.volume)).sum
    let total_call_oi : ℤ := (calls.map (fun r => r.open_interest)).sum
    let total_put_oi : ℤ := (puts.map (fun r => r.open_interest)).sum
    let pc_ratio_volume : ℚ :=
      if 0 < total_call_volume then
        (total_put_volume : ℚ) / (total_call_volume : ℚ) else 0
    let pc_ratio_oi : ℚ :=
      if 0 < total_call_oi then
        (total_put_oi : ℚ) / (total_call_oi : ℚ) else 0
    ⟨total_call_volume, total_put_volume, total_call_oi, total_put_oi,
      pyRound pc_ratio_volume 2, pyRound pc_ratio_oi 2,
      option_chain.length⟩

/-- Sentiment labels of the market-sentiment display block
(src/app.py, lines 483-501). -/
inductive Sentiment where
  | bearish
  | bullish
  | neutral
  | noData
  deriving DecidableEq

/-- The threshold labelling shared by the code and the claim:
average ratio above 1.2 is bearish, below 0.8 bullish, otherwise neutral. -/
def sentimentLabel (avg : ℚ) : Sentiment :=
  if 12/10 < avg then .bearish
  else if avg < 8/10 then .bullish
  else .neutral

/-- The market-sentiment block of src/app.py (lines 467-501): the put/call
ratios are first recomputed as `0` when the corresponding call total is not
positive, then only the *positive* ratios are averaged; when neither ratio is
positive the block shows the no-data label. -/
def marketSentiment (tcv tpv tco tpo : ℚ) : Sentiment :=
  let pcv := if 0 < tcv then tpv / tcv else 0
  let pco := if 0 < tco then tpo / tco else 0
  if 0 < pcv ∨ 0 < pco then
    let ratios := [pcv, pco].filter (fun r => decide (0 < r))
    let avg := if ratios = [] then 0 else ratios.sum / ratios.length
    sentimentLabel avg
  else .noData

/-- Modelled from the claim's words (C5): average the *valid* ratios, i.e.
those whose denominator is non-zero, and return the no-data label only when
no valid ratio exists. -/
def claimSentiment (tcv tpv tco tpo : ℚ) : Sentiment :=
  let ratios := (if 0 < tcv then [tpv / tcv] else [])
      ++ (if 0 < tco then [tpo / tco] else [])
  if ratios = [] then .noData
  else sentimentLabel (ratios.sum / ratios.length)

/-- Amended reading of C5, modelling the code's actual selection rule: only
the numerically positive ratios are averaged. -/
def amendedSentiment (tcv tpv tco tpo : ℚ) : Sentiment :=
  let pcv := if 0 < tcv then tpv / tcv else 0
  let pco := if 0 < tco then tpo / tco else 0
  let ratios := (if 0 < pcv then [pcv] else [])
      ++ (if 0 < pco then [pco] else [])
  if ratios = [] then .noData
  else sentimentLabel (ratios.sum / ratios.length)

/-- Python's `min(l, key=lambda x: abs(x - p))` on a non-empty list: scan
left to right, replacing the best element only on a strictly smaller key, so
the first element attaining the minimal key wins.  Returns `0` on `[]` (the
Python call would raise; every use below is guarded by non-emptiness). -/
def pyMinAbs (l : List ℚ) (p : ℚ) : ℚ :=
  match l with
  | [] => 0
  | x :: xs => xs.foldl (fun b y => if |y - p| < |b - p| then y else b) x

/-- The ATM/display-strikes selection block of src/app.py (lines 266-286):
find the strike closest to the stock price, and if it is more than 20% away
show all strikes, otherwise the slice
`strikes[max(0, i - k) : min(len(strikes), i + k + 1)]`. -/
def displayStrikes (strikes : List ℚ) (stock_price : ℚ) (k : ℕ) : List ℚ :=
  let atm_strike := pyMinAbs strikes stock_price
  let atm_index := strikes.indexOf atm_strike
  let atm_distance_pct := |atm_strike - stock_price| / stock_price * 100
  if 20 < atm_distance_pct then strikes
  else
    ((strikes.take (min strikes.length (atm_index + k + 1))).drop (atm_index - k))

/-- `data_formatter.validate_spread_parameters` (src/utils/data_formatter.py,
lines 319-339), without the error-message string: same-type legs, and
`sell.strike < buy.strike` for calls, `sell.strike > buy.strike` for puts. -/
def validate_spread_parameters (sell_strike buy_strike : ℚ)
    (sell_type buy_type : OptionType) : Bool :=
  if sell_type ≠ buy_type then false
  else match sell_type with
    | .call => decide (sell_strike < buy_strike)
    | .put => decide (buy_strike < sell_strike)

/-- Net credit of the credit-spread calculator (src/app.py, line 602). -/
def net_credit (sell_premium buy_premium : ℚ) : ℚ := sell_premium - buy_premium

/-- Max profit of the credit-spread calculator (src/app.py, line 603). -/
def spread_max_profit (sell_premium buy_premium contracts : ℚ) : ℚ :=
  net_credit sell_premium buy_premium * 100 * contracts

/-- Max loss of the credit-spread calculator (src/app.py, lines 605-626):
spread width minus net credit, times the contract multiplier. -/
def spread_max_loss (ty : OptionType) (sell_strike buy_strike
    sell_premium buy_premium contracts : ℚ) : ℚ :=
  match ty with
  | .call => (buy_strike - sell_strike - net_credit sell_premium buy_premium)
      * 100 * contracts
  | .put => (sell_strike - buy_strike - net_credit sell_premium buy_premium)
      * 100 * contracts

/-- One point of the P&L curve of the credit-spread calculator
(src/app.py, lines 654-666): a pure function of the hypothetical price. -/
def spread_pnl (ty : OptionType) (sell_strike buy_strike
    sell_premium buy_premium contracts price : ℚ) : ℚ :=
  match ty with
  | .call =>
    (net_credit sell_premium buy_premium
      - max 0 (price - sell_strike) + max 0 (price - buy_strike))
      * 100 * contracts
  | .put =>
    (net_credit sell_premium buy_premium
      - max 0 (sell_strike - price) + max 0 (buy_strike - price))
      * 100 * contracts

/-! ## The Black-Scholes evaluator (src/utils/polygon_api.py)

Modelled over `ℝ`: `scipy.stats.norm.pdf`/`norm.cdf` become the standard
normal density and its cumulative integral, and `round(x, 4)` becomes exact
rounding-half-to-even at 4 decimal places on the real value. -/

open MeasureTheory in
/-- Standard normal probability density (`scipy.stats.norm.pdf`). -/
noncomputable def normPdf (x : ℝ) : ℝ :=
  (Real.sqrt (2 * Real.pi))⁻¹ * Real.exp (-x ^ 2 / 2)

open MeasureTheory in
/-- Standard normal cumulative distribution (`scipy.stats.norm.cdf`). -/
noncomputable def normCdf (x : ℝ) : ℝ :=
  ∫ t in Set.Iic x, normPdf t

/-- Round-half-to-even to an integer on `ℝ` (Python's `round`). -/
noncomputable def roundHalfEvenR (y : ℝ) : ℤ :=
  let f := ⌊y⌋
  if y - f < 1/2 then f
  else if 1/2 < y - f then f + 1
  else if f % 2 = 0 then f else f + 1

/-- Python `round(y, 4)` on a real value. -/
noncomputable def pyRound4R (y : ℝ) : ℝ :=
  (roundHalfEvenR (y * 10 ^ 4) : ℝ) / 10 ^ 4

/-- Python exceptions at the evaluator boundary: the spec's error taxonomy
names an `InvalidInput` failure for non-positive price or strike, and CPython
raises `ZeroDivisionError` when two plain floats are divided by zero. -/
inductive PyError where
  | invalidInput
  | zeroDivision
  deriving DecidableEq

/-- The five Greeks returned by `calculate_greeks`. -/
structure Greeks where
  delta : ℝ
  gamma : ℝ
  theta : ℝ
  vega : ℝ
  rho : ℝ

/-- `PolygonOptionsAPI.calculate_greeks` (src/utils/polygon_api.py, lines
52-96).  The Python function performs no validation of `S` or `K` and has no
`raise` statement; the `Except` wrapper models the Python exception channel.
Past the degenerate `T ≤ 0 ∨ sigma ≤ 0` early return, line 72 computes
`np.log(S / K)`: the callers pass plain Python floats, so `S / K` raises
`ZeroDivisionError` when `K = 0` before `np.log` runs — the only error path.
Every other intermediate division has a `np.float64` denominator (it
contains `np.sqrt(T)`), so at `S ≤ 0` or `K < 0` numpy only warns and the
function silently returns a record of NaN/`-inf` values; the real-valued
model uses `Real.log`'s junk value there. -/
noncomputable def calculate_greeks (S K T r sigma : ℝ) (ty : OptionType) :
    Except PyError Greeks :=
  if T ≤ 0 ∨ sigma ≤ 0 then .ok ⟨0, 0, 0, 0, 0⟩
  else if K = 0 then .error .zeroDivision
  else
    let d1 := (Real.log (S / K) + (r + sigma ^ 2 / 2) * T)
      / (sigma * Real.sqrt T)
    let d2 := d1 - sigma * Real.sqrt T
    let gamma := normPdf d1 / (S * sigma * Real.sqrt T)
    let vega := S * normPdf d1 * Real.sqrt T / 100
    match ty with
    | .call =>
      .ok ⟨pyRound4R (normCdf d1),
        pyRound4R gamma,
        pyRound4R ((-S * normPdf d1 * sigma / (2 * Real.sqrt T)
          - r * K * Real.exp (-r * T) * normCdf d2) / 365),
        pyRound4R vega,
        pyRound4R (K * T * Real.exp (-r * T) * normCdf d2 / 100)⟩
    | .put =>
      .ok ⟨pyRound4R (normCdf d1 - 1),
        pyRound4R gamma,
        pyRound4R ((-S * normPdf d1 * sigma / (2 * Real.sqrt T)
          + r * K * Real.exp (-r * T) * normCdf (-d2)) / 365),
        pyRound4R vega,
        pyRound4R (-K * T * Real.exp (-r * T) * normCdf (-d2) / 100)⟩

/-- `PolygonOptionsAPI._d1` (src/utils/polygon_api.py, lines 116-120).
Like `calculate_greeks`, the source would raise `ZeroDivisionError` at
`K = 0` past the degenerate guard; every claim about the price is scoped to
`K > 0` (or to `T ≤ 0`, which returns before `_d1` is called), so the error
channel is not modelled on the price side. -/
noncomputable def bs_d1 (S K T r sigma : ℝ) : ℝ :=
  if T ≤ 0 ∨ sigma ≤ 0 then 0
  else (Real.log (S / K) + (r + sigma ^ 2 / 2) * T) / (sigma * Real.sqrt T)

/-- `PolygonOptionsAPI._black_scholes_price` (src/utils/polygon_api.py,
lines 98-114).  Note: no rounding is applied to the returned price. -/
noncomputable def black_scholes_price (S K T r sigma : ℝ)
    (ty : OptionType) : ℝ :=
  if T ≤ 0 then
    match ty with
    | .call => max 0 (S - K)
    | .put => max 0 (K - S)
  else
    let d1 := bs_d1 S K T r sigma
    let d2 := d1 - sigma * Real.sqrt T
    match ty with
    | .call => S * normCdf d1 - K * Real.exp (-r * T) * normCdf d2
    | .put => K * Real.exp (-r * T) * normCdf (-d2) - S * normCdf (-d1)

/-! Spec-side formulas, transcribed from §4.1 of the specification (used to
state the rounding claim C4 as a refinement). -/

/-- Spec §4.1: `d1 = (ln(S/K) + (r + σ²/2)·T) / (σ·√T)`. -/
noncomputable def spec_d1 (S K T r sigma : ℝ) : ℝ :=
  (Real.log (S / K) + (r + sigma ^ 2 / 2) * T) / (sigma * Real.sqrt T)

/-- Spec §4.1: `d2 = d1 − σ·√T`. -/
noncomputable def spec_d2 (S K T r sigma : ℝ) : ℝ :=
  spec_d1 S K T r sigma - sigma * Real.sqrt T

/-- Spec §4.1: delta, `N(d1)` for a call and `N(d1) − 1` for a put. -/
noncomputable def spec_delta (S K T r sigma : ℝ) (ty : OptionType) : ℝ :=
  match ty with
  | .call => normCdf (spec_d1 S K T r sigma)
  | .put => normCdf (spec_d1 S K T r sigma) - 1

/-- Spec §4.1: `gamma = φ(d1) / (S·σ·√T)`. -/
noncomputable def spec_gamma (S K T r sigma : ℝ) : ℝ :=
  normPdf (spec_d1 S K T r sigma) / (S * sigma * Real.sqrt T)

/-- Spec §4.1: `vega = S·φ(d1)·√T / 100`. -/
noncomputable def spec_vega (S K T r sigma : ℝ) : ℝ :=
  S * normPdf (spec_d1 S K T r sigma) * Real.sqrt T / 100

/-- Spec §4.1: theta per day, divided by 365. -/
noncomputable def spec_theta (S K T r sigma : ℝ) (ty : OptionType) : ℝ :=
  match ty with
  | .call => (-S * normPdf (spec_d1 S K T r sigma) * sigma
      / (2 * Real.sqrt T)
      - r * K * Real.exp (-r * T) * normCdf (spec_d2 S K T r sigma)) / 365
  | .put => (-S * normPdf (spec_d1 S K T r sigma) * sigma
      / (2 * Real.sqrt T)
      + r * K * Real.exp (-r * T) * normCdf (-spec_d2 S K T r sigma)) / 365

/-- Spec §4.1: rho per 1% rate change, divided by 100. -/
noncomputable def spec_rho (S K T r sigma : ℝ) (ty : OptionType) : ℝ :=
  match ty with
  | .call => K * T * Real.exp (-r * T) * normCdf (spec_d2 S K T r sigma) / 100
  | .put => -K * T * Real.exp (-r * T) * normCdf (-spec_d2 S K T r sigma) / 100

/-- Spec §4.1: the closed-form option price. -/
noncomputable def spec_price (S K T r sigma : ℝ) (ty : OptionType) : ℝ :=
  match ty with
  | .call => S * normCdf (spec_d1 S K T r sigma)
      - K * Real.exp (-r * T) * normCdf (spec_d2 S K T r sigma)
  | .put => K * Real.exp (-r * T) * normCdf (-spec_d2 S K T r sigma)
      - S * normCdf (-spec_d1 S K T r sigma)

/-! ## Properties of the standard normal distribution -/

open MeasureTheory in
/-- The density, written in the form used by `integral_gaussian`. -/
lemma normPdf_eq :
    normPdf = fun x => (Real.sqrt (2 * Real.pi))⁻¹ * Real.exp (-(1/2) * x ^ 2) := by
  funext x
  unfold normPdf
  ring_nf

open MeasureTheory in
/-- The standard normal density is integrable on the line. -/
lemma integrable_normPdf : Integrable normPdf := by
  rw [normPdf_eq]
  exact (integrable_exp_neg_mul_sq (by norm_num)).const_mul _

open MeasureTheory in
/-- The density integrates to `1`. -/
lemma integral_normPdf : ∫ x, normPdf x = 1 := by
  rw [normPdf_eq]
  rw [integral_mul_left, integral_gaussian]
  have h1 : Real.pi / (1/2) = 2 * Real.pi := by ring
  rw [h1]
  have h2 : Real.sqrt (2 * Real.pi) ≠ 0 :=
    ne_of_gt (Real.sqrt_pos.mpr (by positivity))
  field_simp

/-- The density is even. -/
lemma normPdf_neg (x : ℝ) : normPdf (-x) = normPdf x := by
  unfold normPdf
  ring_nf

open MeasureTheory in
/-- Reflection symmetry of the normal CDF: `N(x) + N(-x) = 1`. -/
lemma normCdf_add_neg (x : ℝ) : normCdf x + normCdf (-x) = 1 := by
  have h1 : normCdf (-x) = ∫ t in Set.Ioi x, normPdf t := by
    rw [normCdf, ← integral_comp_neg_Ioi]
    simp only [normPdf_neg]
  rw [normCdf, h1,
    intervalIntegral.integral_Iic_add_Ioi integrable_normPdf.integrableOn
      integrable_normPdf.integrableOn,
    integral_normPdf]

open MeasureTheory in
/-- Differences of the normal CDF as interval integrals of the density. -/
lemma normCdf_sub_normCdf (a b : ℝ) :
    normCdf b - normCdf a = ∫ t in a..b, normPdf t := by
  rw [normCdf, normCdf]
  exact intervalIntegral.integral_Iic_sub_Iic integrable_normPdf.integrableOn
    integrable_normPdf.integrableOn

/-! ## Helper lemmas about the Black-Scholes evaluator -/

/-- The non-degenerate call branch of `_black_scholes_price`. -/
lemma bs_price_call_eq (S K T r sigma : ℝ) (hT : 0 < T) :
    black_scholes_price S K T r sigma .call
      = S * normCdf (bs_d1 S K T r sigma)
        - K * Real.exp (-r * T)
          * normCdf (bs_d1 S K T r sigma - sigma * Real.sqrt T) := by
  rw [black_scholes_price, if_neg (not_le.mpr hT)]

/-- The non-degenerate put branch of `_black_scholes_price`. -/
lemma bs_price_put_eq (S K T r sigma : ℝ) (hT : 0 < T) :
    black_scholes_price S K T r sigma .put
      = K * Real.exp (-r * T)
          * normCdf (-(bs_d1 S K T r sigma - sigma * Real.sqrt T))
        - S * normCdf (-bs_d1 S K T r sigma) := by
  rw [black_scholes_price, if_neg (not_le.mpr hT)]

/-! ## Numerical bounds used for the rounding claim

The concrete price `black_scholes_price 1 1 1 0 1 call` equals
`N(1/2) - N(-1/2)`, which is pinned between `0.3829` and `0.38295` by a
degree-8 Taylor bound on the Gaussian integrand. -/

/-- Two-sided degree-8 polynomial bound on `exp(-t^2/2)`, from the Taylor
remainder bound `Real.exp_bound` with four terms. -/
lemma exp_quartic_bound (t : ℝ) (ht : t ^ 2 ≤ 1/4) :
    1 - t^2/2 + t^4/8 - t^6/48 - 5*t^8/1536 ≤ Real.exp (-t^2/2)
    ∧ Real.exp (-t^2/2) ≤ 1 - t^2/2 + t^4/8 - t^6/48 + 5*t^8/1536 := by
  have ht0 : (0:ℝ) ≤ t ^ 2 := sq_nonneg t
  have hx : |(-t^2/2 : ℝ)| ≤ 1 := by
    rw [abs_of_nonpos (by linarith)]
    linarith
  have hb := Real.exp_bound hx (n := 4) (by norm_num)
  have hsum : ∑ m ∈ Finset.range 4, (-t^2/2 : ℝ) ^ m / m.factorial
      = 1 - t^2/2 + t^4/8 - t^6/48 := by
    simp [Finset.sum_range_succ, Nat.factorial]
    ring
  have habs : |(-t^2/2 : ℝ)| = t^2/2 := by
    rw [abs_of_nonpos (by linarith)]
    ring
  rw [hsum, habs] at hb
  norm_num [Nat.factorial] at hb
  obtain ⟨hlo, hhi⟩ := abs_sub_le_iff.mp hb
  constructor <;> nlinarith [sq_nonneg t, sq_nonneg (t^2), sq_nonneg (t^4)]

open intervalIntegral in
/-- Closed form for interval integrals of even polynomials of degree 8. -/
lemma integral_even_poly8 (a b c0 c2 c4 c6 c8 : ℝ) :
    ∫ t in a..b, (c0 + c2 * t^2 + c4 * t^4 + c6 * t^6 + c8 * t^8)
      = c0 * (b - a) + c2 * (b^3 - a^3) / 3 + c4 * (b^5 - a^5) / 5
        + c6 * (b^7 - a^7) / 7 + c8 * (b^9 - a^9) / 9 := by
  have hmono : ∀ (c : ℝ) (n : ℕ),
      IntervalIntegrable (fun t : ℝ => c * t ^ n) MeasureTheory.volume a b :=
    fun c n => ((continuous_const.mul (continuous_pow n)).intervalIntegrable a b)
  have hc : IntervalIntegrable (fun _ : ℝ => c0) MeasureTheory.volume a b :=
    intervalIntegrable_const
  rw [integral_add (((hc.add (hmono c2 2)).add (hmono c4 4)).add (hmono c6 6)) (hmono c8 8),
    integral_add ((hc.add (hmono c2 2)).add (hmono c4 4)) (hmono c6 6),
    integral_add (hc.add (hmono c2 2)) (hmono c4 4),
    integral_add hc (hmono c2 2)]
  simp only [integral_const_mul, integral_pow, integral_const, smul_eq_mul]
  push_cast
  ring

/-- Membership in `[-1/2, 1/2]` bounds the square by `1/4`. -/
lemma sq_le_quarter_of_mem {x : ℝ} (hx : x ∈ Set.Icc (-(1/2):ℝ) (1/2)) :
    x ^ 2 ≤ 1/4 := by
  obtain ⟨h1, h2⟩ := hx
  nlinarith

/-- Lower bound for the central Gaussian integral. -/
lemma gaussJ_lower :
    (1 - 1/24 + 1/640 - 1/21504 - 5/3538944 : ℝ)
      ≤ ∫ t in (-(1/2):ℝ)..(1/2), Real.exp (-t^2/2) := by
  have hexp : IntervalIntegrable (fun t : ℝ => Real.exp (-t^2/2))
      MeasureTheory.volume (-(1/2)) (1/2) := by
    apply Continuous.intervalIntegrable
    fun_prop
  have hpoly : IntervalIntegrable
      (fun t : ℝ => 1 + (-(1/2)) * t^2 + (1/8) * t^4 + (-(1/48)) * t^6
        + (-(5/1536)) * t^8) MeasureTheory.volume (-(1/2)) (1/2) := by
    apply Continuous.intervalIntegrable
    fun_prop
  have h := intervalIntegral.integral_mono_on (by norm_num : (-(1/2):ℝ) ≤ 1/2)
    hpoly hexp (fun x hx => by
      have := (exp_quartic_bound x (sq_le_quarter_of_mem hx)).1
      linarith)
  rw [integral_even_poly8] at h
  calc (1 - 1/24 + 1/640 - 1/21504 - 5/3538944 : ℝ)
      = 1 * ((1:ℝ)/2 - -(1/2)) + (-(1/2)) * (((1:ℝ)/2)^3 - (-(1/2))^3) / 3
        + (1/8) * (((1:ℝ)/2)^5 - (-(1/2))^5) / 5
        + (-(1/48)) * (((1:ℝ)/2)^7 - (-(1/2))^7) / 7
        + (-(5/1536)) * (((1:ℝ)/2)^9 - (-(1/2))^9) / 9 := by norm_num
    _ ≤ _ := h

/-- Upper bound for the central Gaussian integral. -/
lemma gaussJ_upper :
    (∫ t in (-(1/2):ℝ)..(1/2), Real.exp (-t^2/2))
      ≤ (1 - 1/24 + 1/640 - 1/21504 + 5/3538944 : ℝ) := by
  have hexp : IntervalIntegrable (fun t : ℝ => Real.exp (-t^2/2))
      MeasureTheory.volume (-(1/2)) (1/2) := by
    apply Continuous.intervalIntegrable
    fun_prop
  have hpoly : IntervalIntegrable
      (fun t : ℝ => 1 + (-(1/2)) * t^2 + (1/8) * t^4 + (-(1/48)) * t^6
        + (5/1536) * t^8) MeasureTheory.volume (-(1/2)) (1/2) := by
    apply Continuous.intervalIntegrable
    fun_prop
  have h := intervalIntegral.integral_mono_on (by norm_num : (-(1/2):ℝ) ≤ 1/2)
    hexp hpoly (fun x hx => by
      have := (exp_quartic_bound x (sq_le_quarter_of_mem hx)).2
      linarith)
  rw [integral_even_poly8] at h
  calc (∫ t in (-(1/2):ℝ)..(1/2), Real.exp (-t^2/2)) ≤ _ := h
    _ = (1 - 1/24 + 1/640 - 1/21504 + 5/3538944 : ℝ) := by norm_num

/-- `d1` at the concrete input `S = K = T = sigma = 1`, `r = 0`. -/
lemma bs_d1_concrete : bs_d1 1 1 1 0 1 = 1/2 := by
  rw [bs_d1, if_neg (by norm_num)]
  norm_num [Real.sqrt_one]

/-- The concrete price as a Gaussian integral. -/
lemma bs_price_concrete :
    black_scholes_price 1 1 1 0 1 .call
      = (Real.sqrt (2 * Real.pi))⁻¹
        * ∫ t in (-(1/2):ℝ)..(1/2), Real.exp (-t^2/2) := by
  have h1 : black_scholes_price 1 1 1 0 1 .call
      = normCdf (1/2) - normCdf (-(1/2)) := by
    rw [bs_price_call_eq 1 1 1 0 1 one_pos, bs_d1_concrete]
    norm_num [Real.sqrt_one, Real.exp_zero]
  rw [h1, normCdf_sub_normCdf]
  unfold normPdf
  rw [intervalIntegral.integral_const_mul]

/-- The concrete price is strictly above `0.3829`. -/
lemma bs_price_concrete_gt :
    (3829/10000 : ℝ) < black_scholes_price 1 1 1 0 1 .call := by
  rw [bs_price_concrete]
  have hJ := gaussJ_lower
  have hs_pos : 0 < Real.sqrt (2 * Real.pi) :=
    Real.sqrt_pos.mpr (by positivity)
  have hsq : Real.sqrt (2 * Real.pi)
      < (1 - 1/24 + 1/640 - 1/21504 - 5/3538944 : ℝ) / (3829/10000) := by
    rw [Real.sqrt_lt' (by norm_num)]
    nlinarith [Real.pi_lt_d6]
  rw [lt_div_iff₀ (by norm_num : (0:ℝ) < 3829/10000)] at hsq
  have hkey : (3829/10000 : ℝ) * Real.sqrt (2 * Real.pi)
      < ∫ t in (-(1/2):ℝ)..(1/2), Real.exp (-t^2/2) := by
    calc (3829/10000 : ℝ) * Real.sqrt (2 * Real.pi)
        = Real.sqrt (2 * Real.pi) * (3829/10000) := by ring
      _ < 1 - 1/24 + 1/640 - 1/21504 - 5/3538944 := hsq
      _ ≤ _ := hJ
  calc (3829/10000 : ℝ)
      = (Real.sqrt (2 * Real.pi))⁻¹
        * ((3829/10000) * Real.sqrt (2 * Real.pi)) := by
        field_simp
    _ < (Real.sqrt (2 * Real.pi))⁻¹
        * ∫ t in (-(1/2):ℝ)..(1/2), Real.exp (-t^2/2) :=
        mul_lt_mul_of_pos_left hkey (inv_pos.mpr hs_pos)

/-- The concrete price is strictly below `0.38295`. -/
lemma bs_price_concrete_lt :
    black_scholes_price 1 1 1 0 1 .call < (38295/100000 : ℝ) := by
  rw [bs_price_concrete]
  have hJ := gaussJ_upper
  have hs_pos : 0 < Real.sqrt (2 * Real.pi) :=
    Real.sqrt_pos.mpr (by positivity)
  have hsq : (1 - 1/24 + 1/640 - 1/21504 + 5/3538944 : ℝ) / (38295/100000)
      < Real.sqrt (2 * Real.pi) := by
    rw [Real.lt_sqrt (by norm_num)]
    nlinarith [Real.pi_gt_d6]
  rw [div_lt_iff₀ (by norm_num : (0:ℝ) < 38295/100000)] at hsq
  have hkey : (∫ t in (-(1/2):ℝ)..(1/2), Real.exp (-t^2/2))
      < (38295/100000 : ℝ) * Real.sqrt (2 * Real.pi) := by
    calc (∫ t in (-(1/2):ℝ)..(1/2), Real.exp (-t^2/2))
        ≤ 1 - 1/24 + 1/640 - 1/21504 + 5/3538944 := hJ
      _ < Real.sqrt (2 * Real.pi) * (38295/100000) := hsq
      _ = (38295/100000 : ℝ) * Real.sqrt (2 * Real.pi) := by ring
  calc (Real.sqrt (2 * Real.pi))⁻¹
        * ∫ t in (-(1/2):ℝ)..(1/2), Real.exp (-t^2/2)
      < (Real.sqrt (2 * Real.pi))⁻¹
        * ((38295/100000) * Real.sqrt (2 * Real.pi)) :=
        mul_lt_mul_of_pos_left hkey (inv_pos.mpr hs_pos)
    _ = 38295/100000 := by field_simp

/-- Any real strictly between `0.3829` and `0.38295` rounds to `0.3829` at
4 decimal places. -/
lemma pyRound4R_of_between {y : ℝ} (h1 : (3829/10000 : ℝ) < y)
    (h2 : y < (38295/100000 : ℝ)) : pyRound4R y = 3829/10000 := by
  have hfl : ⌊y * 10^4⌋ = 3829 := by
    rw [Int.floor_eq_iff]
    constructor
    · push_cast
      nlinarith
    · push_cast
      nlinarith
  rw [pyRound4R, roundHalfEvenR]
  simp only [hfl]
  rw [if_pos (by push_cast; nlinarith)]
  norm_num

/-! ## Helper lemmas for the ATM / display-window selection -/

/-- A fold with strict-improvement updates keeps an accumulator that nothing
in the list strictly beats (Python `min` keeps the first minimum). -/
lemma foldl_min_keep (p : ℚ) (xs : List ℚ) :
    ∀ b : ℚ, (∀ y ∈ xs, ¬ |y - p| < |b - p|) →
    xs.foldl (fun b y => if |y - p| < |b - p| then y else b) b = b := by
  induction xs with
  | nil => intro b _; rfl
  | cons y ys ih =>
    intro b h
    simp only [List.foldl_cons]
    rw [if_neg (h y (List.mem_cons_self y ys))]
    exact ih b (fun z hz => h z (List.mem_cons_of_mem y hz))

/-- If position `j` holds the first strict minimum of the key among the list
and it also beats the accumulator, the fold returns that element. -/
lemma foldl_min_first (p : ℚ) (xs : List ℚ) :
    ∀ (b : ℚ) (j : ℕ) (hj : j < xs.length),
    |xs.get ⟨j, hj⟩ - p| < |b - p| →
    (∀ l (hl : l < xs.length), l < j →
      |xs.get ⟨j, hj⟩ - p| < |xs.get ⟨l, hl⟩ - p|) →
    (∀ l (hl : l < xs.length), j ≤ l →
      |xs.get ⟨j, hj⟩ - p| ≤ |xs.get ⟨l, hl⟩ - p|) →
    xs.foldl (fun b y => if |y - p| < |b - p| then y else b) b
      = xs.get ⟨j, hj⟩ := by
  induction xs with
  | nil => intro b j hj; exact absurd hj (by simp)
  | cons y ys ih =>
    intro b j hj hbeat hfirst hmin
    simp only [List.foldl_cons]
    cases j with
    | zero =>
      have hbeat2 : |y - p| < |b - p| := hbeat
      rw [if_pos hbeat2]
      show List.foldl (fun b y => if |y - p| < |b - p| then y else b) y ys = y
      apply foldl_min_keep
      intro z hz
      obtain ⟨⟨m, hm⟩, rfl⟩ := List.get_of_mem hz
      have h := hmin (m+1) (by simpa using Nat.succ_lt_succ hm) (Nat.zero_le _)
      exact not_lt.mpr h
    | succ m =>
      have hm : m < ys.length := by simpa using Nat.lt_of_succ_lt_succ hj
      have hy : |ys.get ⟨m, hm⟩ - p| < |y - p| := by
        have h := hfirst 0 (by simp) (Nat.succ_pos m)
        exact h
      have hfirst2 : ∀ l (hl : l < ys.length), l < m →
          |ys.get ⟨m, hm⟩ - p| < |ys.get ⟨l, hl⟩ - p| := by
        intro l hl hlm
        exact hfirst (l+1) (by simpa using Nat.succ_lt_succ hl)
          (Nat.succ_lt_succ hlm)
      have hmin2 : ∀ l (hl : l < ys.length), m ≤ l →
          |ys.get ⟨m, hm⟩ - p| ≤ |ys.get ⟨l, hl⟩ - p| := by
        intro l hl hml
        exact hmin (l+1) (by simpa using Nat.succ_lt_succ hl)
          (Nat.succ_le_succ hml)
      have hbeat2 : |ys.get ⟨m, hm⟩ - p| < |b - p| := hbeat
      show List.foldl (fun b y => if |y - p| < |b - p| then y else b)
        (if |y - p| < |b - p| then y else b) ys = ys.get ⟨m, hm⟩
      by_cases hcase : |y - p| < |b - p|
      · rw [if_pos hcase]
        exact ih y m hm hy hfirst2 hmin2
      · rw [if_neg hcase]
        exact ih b m hm hbeat2 hfirst2 hmin2

/-- `min(strikes, key=lambda x: abs(x - p))` returns the element at the first
index attaining the minimal distance. -/
lemma pyMinAbs_eq (strikes : List ℚ) (p : ℚ) (i : ℕ)
    (hi : i < strikes.length)
    (hmin : ∀ j (hj : j < strikes.length),
      |strikes.get ⟨i, hi⟩ - p| ≤ |strikes.get ⟨j, hj⟩ - p|)
    (hfirst : ∀ j (hj : j < strikes.length), j < i →
      |strikes.get ⟨i, hi⟩ - p| < |strikes.get ⟨j, hj⟩ - p|) :
    pyMinAbs strikes p = strikes.get ⟨i, hi⟩ := by
  cases strikes with
  | nil => exact absurd hi (by simp)
  | cons x xs =>
    show xs.foldl (fun b y => if |y - p| < |b - p| then y else b) x
      = (x :: xs).get ⟨i, hi⟩
    cases i with
    | zero =>
      apply foldl_min_keep
      intro z hz
      obtain ⟨⟨m, hm⟩, rfl⟩ := List.get_of_mem hz
      have h := hmin (m+1) (by simpa using Nat.succ_lt_succ hm)
      exact not_lt.mpr h
    | succ m =>
      have hm : m < xs.length := by simpa using Nat.lt_of_succ_lt_succ hi
      apply foldl_min_first p xs x m hm
      · exact hfirst 0 (by simp) (Nat.succ_pos m)
      · intro l hl hlm
        exact hfirst (l+1) (by simpa using Nat.succ_lt_succ hl)
          (Nat.succ_lt_succ hlm)
      · intro l hl hml
        exact hmin (l+1) (by simpa using Nat.succ_lt_succ hl)

/-- Rounding zero gives zero. -/
lemma pyRound_zero (d : ℕ) : pyRound 0 d = 0 := by
  norm_num [pyRound, roundHalfEven]

/-- Multiplying an inequality by the non-negative factor `100 * c`. -/
lemma mul100c_le (a b c : ℚ) (h : a ≤ b) (hc : 0 ≤ c) :
    a * 100 * c ≤ b * 100 * c := by
  apply mul_le_mul_of_nonneg_right _ hc
  linarith

/-! ## The claims -/

/-! ## Claim C1 -/

/-- C1 counterexample: when the total call volume is zero (first chain) the
aggregate reports the put/call volume ratio as the number `0` — exactly the
value reported for a genuinely zero ratio (second chain, put volume `0` with
positive call volume) — so the "unavailable" state is not a distinct value
and callers of the aggregate cannot separate the three states. -/
theorem aggregate_pc_ratio_conflates_zero :
    (aggregate_option_metrics [⟨.put, 5, 10⟩]).pc_ratio_volume = 0
    ∧ (aggregate_option_metrics [⟨.call, 5, 10⟩]).pc_ratio_volume = 0 := by
  constructor <;>
    norm_num [aggregate_option_metrics, pyRound, roundHalfEven, List.filter,
      List.map, List.sum_cons]

/-- C1 (amended): `aggregate_option_metrics` reports the put/call volume
(resp. open-interest) ratio as the number `0` whenever the corresponding call
total is zero — the same value as a genuine zero ratio, not a distinct
"unavailable" value — and as `round(put/call, 2)` when the call total is
positive.  Only the UI layer separately renders `N/A`. -/
theorem aggregate_pc_ratio_zero_for_zero_calls (rows : List ChainRow)
    (hne : rows ≠ []) :
    ((aggregate_option_metrics rows).total_call_volume = 0 →
      (aggregate_option_metrics rows).pc_ratio_volume = 0)
    ∧ ((aggregate_option_metrics rows).total_call_oi = 0 →
      (aggregate_option_metrics rows).pc_ratio_oi = 0)
    ∧ (0 < (aggregate_option_metrics rows).total_call_volume →
      (aggregate_option_metrics rows).pc_ratio_volume
        = pyRound (((aggregate_option_metrics rows).total_put_volume : ℚ) /
            ((aggregate_option_metrics rows).total_call_volume : ℚ)) 2)
    ∧ (0 < (aggregate_option_metrics rows).total_call_oi →
      (aggregate_option_metrics rows).pc_ratio_oi
        = pyRound (((aggregate_option_metrics rows).total_put_oi : ℚ) /
            ((aggregate_option_metrics rows).total_call_oi : ℚ)) 2) := by
  simp only [aggregate_option_metrics, if_neg hne]
  refine ⟨fun h => ?_, fun h => ?_, fun h => ?_, fun h => ?_⟩
  · rw [if_neg (by omega), pyRound_zero]
  · rw [if_neg (by omega), pyRound_zero]
  · rw [if_pos h]
  · rw [if_pos h]

/-- C1 witness: the amended statement evaluated on a one-put chain. -/
theorem aggregate_pc_ratio_zero_for_zero_calls_witness :
    (aggregate_option_metrics [⟨.put, 7, 3⟩]).pc_ratio_volume = 0 := by
  apply (aggregate_pc_ratio_zero_for_zero_calls [⟨.put, 7, 3⟩]
    (by simp)).1
  norm_num [aggregate_option_metrics, List.filter, List.map]

/-! ## Claim C2 -/

/-- C2 counterexample: at `S = -1` (with `T > 0`, `sigma > 0`) the Greeks
computation does not fail with an `InvalidInput` error — it returns a
(garbage-valued) numeric record, so the result is `.ok`, not `.error`. -/
theorem calculate_greeks_no_error_on_negative_S :
    (calculate_greeks (-1) 1 1 (1/20) (1/5) OptionType.call).isOk = true := by
  rw [calculate_greeks, if_neg (by norm_num), if_neg (by norm_num)]
  rfl

/-- C2 (amended): the evaluator performs no `InvalidInput` validation of `S`
or `K`.  For every input with `S ≤ 0` or `K ≤ 0` with `K ≠ 0` it raises no
error and silently returns a numeric Greeks record (in the float code,
computed through `log` of a non-positive argument, i.e. NaN/`-inf` values
propagated); at `K = 0` (with `T > 0`, `sigma > 0`) it fails with an
unguarded `ZeroDivisionError` from the plain-float `S / K`, not with the
spec's `InvalidInput` error. -/
theorem calculate_greeks_no_input_validation (S K T r sigma : ℝ)
    (ty : OptionType) (h : S ≤ 0 ∨ K ≤ 0) :
    (K ≠ 0 → (calculate_greeks S K T r sigma ty).isOk = true)
    ∧ (0 < T → 0 < sigma → K = 0 →
        calculate_greeks S K T r sigma ty = .error PyError.zeroDivision) := by
  constructor
  · intro hK
    rw [calculate_greeks]
    by_cases hdeg : T ≤ 0 ∨ sigma ≤ 0
    · rw [if_pos hdeg]
      rfl
    · rw [if_neg hdeg, if_neg hK]
      cases ty <;> rfl
  · intro hT hsig hK0
    rw [calculate_greeks, if_neg (by push_neg; exact ⟨hT, hsig⟩),
      if_pos hK0]

/-- C2 witness: the amended statement at concrete inputs — a negative stock
price returns a numeric record, and a zero strike fails with the
division-by-zero error. -/
theorem calculate_greeks_no_input_validation_witness :
    (calculate_greeks (-2) 3 1 (1/20) (1/5) OptionType.put).isOk = true
    ∧ calculate_greeks 5 0 1 (1/20) (1/5) OptionType.call
        = .error PyError.zeroDivision := by
  constructor
  · exact (calculate_greeks_no_input_validation (-2) 3 1 (1/20) (1/5)
      OptionType.put (Or.inl (by norm_num))).1 (by norm_num)
  · exact (calculate_greeks_no_input_validation 5 0 1 (1/20) (1/5)
      OptionType.call (Or.inr le_rfl)).2 (by norm_num) (by norm_num) rfl

/-! ## Claim C3 -/

/-- C3: for `T ≤ 0` or `sigma ≤ 0` the Greeks computation returns the
all-zero record without raising, and for `T ≤ 0` the price degenerates to
the intrinsic value: `max 0 (S - K)` for a call, `max 0 (K - S)` for a
put. -/
theorem degenerate_greeks_and_intrinsic_price (S K T r sigma : ℝ)
    (ty : OptionType) :
    (T ≤ 0 ∨ sigma ≤ 0 →
      calculate_greeks S K T r sigma ty = .ok ⟨0, 0, 0, 0, 0⟩)
    ∧ (T ≤ 0 → black_scholes_price S K T r sigma .call = max 0 (S - K)
        ∧ black_scholes_price S K T r sigma .put = max 0 (K - S)) := by
  refine ⟨fun h => ?_, fun h => ⟨?_, ?_⟩⟩
  · rw [calculate_greeks, if_pos h]
  · rw [black_scholes_price, if_pos h]
  · rw [black_scholes_price, if_pos h]

/-- C3 witness: an expired in-the-money call is worth its intrinsic value
and has all-zero Greeks. -/
theorem degenerate_greeks_and_intrinsic_price_witness :
    calculate_greeks 100 90 0 (1/20) (1/2) OptionType.call
      = .ok ⟨0, 0, 0, 0, 0⟩
    ∧ black_scholes_price 100 90 0 (1/20) (1/2) OptionType.call = 10 := by
  obtain ⟨h1, h2⟩ :=
    degenerate_greeks_and_intrinsic_price 100 90 0 (1/20) (1/2)
      OptionType.call
  refine ⟨h1 (Or.inl le_rfl), ?_⟩
  rw [(h2 le_rfl).1]
  norm_num

/-! ## Claim C4 -/

/-- C4 counterexample: at the valid input `S = K = 1`, `T = 1`, `r = 0`,
`sigma = 1`, the price returned by `_black_scholes_price` is *not* the exact
closed-form value rounded to 4 decimal places: the exact value
`N(1/2) - N(-1/2)` lies strictly between `0.3829` and `0.38295`, so its
4-decimal rounding is `0.3829`, strictly below the (unrounded) value the
code returns. -/
theorem price_not_rounded_to_4dp :
    black_scholes_price 1 1 1 0 1 OptionType.call
      ≠ pyRound4R (spec_price 1 1 1 0 1 OptionType.call) := by
  have hspec : spec_price 1 1 1 0 1 OptionType.call
      = black_scholes_price 1 1 1 0 1 OptionType.call := by
    rw [bs_price_call_eq 1 1 1 0 1 one_pos, bs_d1_concrete]
    simp only [spec_price, spec_d2, spec_d1]
    norm_num [Real.sqrt_one]
  rw [hspec,
    pyRound4R_of_between bs_price_concrete_gt bs_price_concrete_lt]
  exact ne_of_gt bs_price_concrete_gt

/-- C4 (amended): for valid inputs (`S > 0`, `K > 0`, `T > 0`, `sigma > 0`)
each of the five Greeks is the exact spec formula rounded to 4 decimal
places at the return boundary, with no earlier rounding; the price, however,
is returned as the raw closed-form value with *no* rounding applied. -/
theorem greeks_rounded_price_raw (S K T r sigma : ℝ) (ty : OptionType)
    (hS : 0 < S) (hK : 0 < K) (hT : 0 < T) (hsig : 0 < sigma) :
    calculate_greeks S K T r sigma ty
      = .ok ⟨pyRound4R (spec_delta S K T r sigma ty),
          pyRound4R (spec_gamma S K T r sigma),
          pyRound4R (spec_theta S K T r sigma ty),
          pyRound4R (spec_vega S K T r sigma),
          pyRound4R (spec_rho S K T r sigma ty)⟩
    ∧ black_scholes_price S K T r sigma ty = spec_price S K T r sigma ty := by
  have hcond : ¬ (T ≤ 0 ∨ sigma ≤ 0) := by
    push_neg
    exact ⟨hT, hsig⟩
  have hd1 : bs_d1 S K T r sigma = spec_d1 S K T r sigma := by
    rw [bs_d1, if_neg hcond, spec_d1]
  constructor
  · rw [calculate_greeks, if_neg hcond, if_neg hK.ne']
    cases ty <;> rfl
  · cases ty with
    | call =>
      rw [bs_price_call_eq S K T r sigma hT, hd1]
      simp only [spec_price, spec_d2]
    | put =>
      rw [bs_price_put_eq S K T r sigma hT, hd1]
      simp only [spec_price, spec_d2]

/-- C4 witness: the amended statement at the concrete valid input
`(1, 1, 1, 0, 1)`. -/
theorem greeks_rounded_price_raw_witness :
    (0:ℝ) < 1
    ∧ (calculate_greeks 1 1 1 0 1 OptionType.call
        = .ok ⟨pyRound4R (spec_delta 1 1 1 0 1 OptionType.call),
            pyRound4R (spec_gamma 1 1 1 0 1),
            pyRound4R (spec_theta 1 1 1 0 1 OptionType.call),
            pyRound4R (spec_vega 1 1 1 0 1),
            pyRound4R (spec_rho 1 1 1 0 1 OptionType.call)⟩
      ∧ black_scholes_price 1 1 1 0 1 OptionType.call
          = spec_price 1 1 1 0 1 OptionType.call) :=
  ⟨one_pos, greeks_rounded_price_raw 1 1 1 0 1 OptionType.call one_pos
    one_pos one_pos one_pos⟩

/-! ## Claim C5 -/

/-- C5 counterexample: with call volume 100, put volume 0, call OI 100,
put OI 100, the valid ratios are `0` and `1`, whose average `0.5` the claim
labels bullish; the code excludes the valid zero ratio, averages only `1`,
and labels the chain neutral. -/
theorem sentiment_excludes_valid_zero_ratio :
    marketSentiment 100 0 100 100 = Sentiment.neutral
    ∧ claimSentiment 100 0 100 100 = Sentiment.bullish := by
  constructor
  · norm_num [marketSentiment, sentimentLabel]
  · norm_num [claimSentiment, sentimentLabel, List.sum_cons]
    exact fun h => nomatch h

/-- C5 (amended): the sentiment block averages only the numerically
*positive* ratios (a valid zero ratio is treated as missing, and the no-data
label is shown whenever neither ratio is positive, even if a valid zero
ratio exists); thresholds: average above 1.2 bearish, below 0.8 bullish,
otherwise neutral. -/
theorem sentiment_averages_positive_ratios (tcv tpv tco tpo : ℚ) :
    marketSentiment tcv tpv tco tpo = amendedSentiment tcv tpv tco tpo := by
  by_cases h1 : 0 < (if 0 < tcv then tpv / tcv else 0) <;>
    by_cases h2 : 0 < (if 0 < tco then tpo / tco else 0) <;>
      simp [marketSentiment, amendedSentiment, h1, h2]

/-! ## Claim C6 -/

/-- C6: on a sorted list of unique strikes with positive stock price, if
index `i` is the first index minimising `|strike - stock_price|` (under
ascending order this is the smallest such strike on exact ties), then: when
that nearest strike is within 20% of the stock price the display selection
is exactly the index window `[i - k, i + k]` clipped to the list bounds, and
when it is farther than 20% the whole strike list is returned. -/
theorem display_window_selection (strikes : List ℚ) (p : ℚ) (k : ℕ) (i : ℕ)
    (hsort : strikes.Sorted (· < ·)) (hp : 0 < p)
    (hi : i < strikes.length)
    (hmin : ∀ j (hj : j < strikes.length),
      |strikes.get ⟨i, hi⟩ - p| ≤ |strikes.get ⟨j, hj⟩ - p|)
    (hfirst : ∀ j (hj : j < strikes.length), j < i →
      |strikes.get ⟨i, hi⟩ - p| < |strikes.get ⟨j, hj⟩ - p|) :
    (|strikes.get ⟨i, hi⟩ - p| ≤ p * (20/100) →
      displayStrikes strikes p k = (strikes.take (i + k + 1)).drop (i - k))
    ∧ (p * (20/100) < |strikes.get ⟨i, hi⟩ - p| →
      displayStrikes strikes p k = strikes) := by
  have hatm : pyMinAbs strikes p = strikes.get ⟨i, hi⟩ :=
    pyMinAbs_eq strikes p i hi hmin hfirst
  have hidx : strikes.indexOf (strikes.get ⟨i, hi⟩) = i := by
    have h := List.indexOf_getElem (hsort.nodup) i hi
    simpa using h
  have hcond : 20 < |strikes.get ⟨i, hi⟩ - p| / p * 100
      ↔ p * (20/100) < |strikes.get ⟨i, hi⟩ - p| := by
    rw [div_mul_eq_mul_div, lt_div_iff₀ hp]
    constructor <;> intro h <;> linarith
  constructor
  · intro hle
    simp only [displayStrikes, hatm, hidx]
    rw [if_neg ((not_congr hcond).mpr (not_lt.mpr hle))]
    congr 1
    rcases le_total (i + k + 1) strikes.length with h | h
    · rw [min_eq_right h]
    · rw [min_eq_left h, List.take_length, List.take_of_length_le h]
  · intro hgt
    simp only [displayStrikes, hatm, hidx]
    rw [if_pos (hcond.mpr hgt)]

/-- C6 witness: the spec's worked example — strikes 90..110, stock price
101, one strike each side of the ATM strike 100 — yields `[95, 100, 105]`. -/
theorem display_window_selection_witness :
    displayStrikes [90, 95, 100, 105, 110] 101 1 = [95, 100, 105] := by
  have h := display_window_selection [90, 95, 100, 105, 110] 101 1 2
    (by simp [List.sorted_cons]; norm_num)
    (by norm_num)
    (by norm_num)
    (by
      intro j hj
      simp only [List.length_cons, List.length_nil] at hj
      interval_cases j <;> simp [List.get] <;> norm_num [abs, max_def])
    (by
      intro j hj hji
      interval_cases j <;> simp [List.get] <;> norm_num [abs, max_def])
  have h2 := h.1 (by norm_num [List.get, abs, max_def])
  rw [h2]
  rfl

/-! ## Claim C7 -/

/-- C7 counterexample: at `last_price = 1`, `volume = 0` (spread tier 25%)
the claimed formula gives `(0.875, 1.125)`, but the code rounds each side to
2 decimal places before returning and yields `(0.88, 1.12)`. -/
theorem estimate_bid_ask_rounds_to_cents :
    estimate_bid_ask_spread 1 0
      ≠ (max (1/100) (1 - 1 * (25/100) / 2), 1 + 1 * (25/100) / 2) := by
  have hval : estimate_bid_ask_spread 1 0 = (88/100, 112/100) := by
    norm_num [estimate_bid_ask_spread, pyRound, roundHalfEven]
  rw [hval]
  intro h
  have h2 := congrArg Prod.snd h
  norm_num at h2

/-- C7 (amended): for positive `last_price` the estimator returns
`bid = max(0.01, round(last - last*pct/2, 2))` and
`ask = round(last + last*pct/2, 2)` — the claimed formulas with each side
rounded to 2 decimal places before returning — with the volume-tier table
2% / 4% / 8% / 15% / 25%; for `last_price ≤ 0` it returns `(0, 0)`. -/
theorem estimate_bid_ask_tiered (lp : ℚ) (vol : ℤ) :
    (0 < lp → estimate_bid_ask_spread lp vol =
      (max (1/100) (pyRound (lp - lp * (if 10000 < vol then 2/100
          else if 1000 < vol then 4/100 else if 100 < vol then 8/100
          else if 10 < vol then 15/100 else 25/100) / 2) 2),
       pyRound (lp + lp * (if 10000 < vol then 2/100
          else if 1000 < vol then 4/100 else if 100 < vol then 8/100
          else if 10 < vol then 15/100 else 25/100) / 2) 2))
    ∧ (lp ≤ 0 → estimate_bid_ask_spread lp vol = (0, 0)) := by
  constructor
  · intro h
    rw [estimate_bid_ask_spread, if_neg (not_le.mpr h)]
  · intro h
    rw [estimate_bid_ask_spread, if_pos h]

/-- C7 witness: the spec's worked example `estimate_bid_ask(100, 50000) =
(99.0, 101.0)` (2% tier). -/
theorem estimate_bid_ask_tiered_witness :
    estimate_bid_ask_spread 100 50000 = (99, 101) := by
  rw [(estimate_bid_ask_tiered 100 50000).1 (by norm_num)]
  norm_num [pyRound, roundHalfEven]

/-! ## Claim C8 -/

/-- C8: for positive stock price and strike the classifier returns the raw
moneyness percentage `(S - K)/S * 100` (identical for calls and puts), the
symmetric 0.5% ITM/OTM band (directions inverted for puts) with ATM as the
complement of both, and the standard intrinsic value; for non-positive
stock price or strike it returns the zeroed all-false record. -/
theorem moneyness_classification (S K : ℚ) (ty : OptionType) :
    (0 < S → 0 < K →
      (calculate_moneyness S K ty).moneyness_pct = (S - K) / S * 100
      ∧ ((calculate_moneyness S K ty).is_itm = true ↔
          (ty = .call ∧ K * (1 + (1/2)/100) < S)
          ∨ (ty = .put ∧ S < K * (1 - (1/2)/100)))
      ∧ ((calculate_moneyness S K ty).is_otm = true ↔
          (ty = .call ∧ S < K * (1 - (1/2)/100))
          ∨ (ty = .put ∧ K * (1 + (1/2)/100) < S))
      ∧ ((calculate_moneyness S K ty).is_atm = true ↔
          ((calculate_moneyness S K ty).is_itm = false
            ∧ (calculate_moneyness S K ty).is_otm = false))
      ∧ (calculate_moneyness S K ty).intrinsic_value
          = (if ty = .call then max 0 (S - K) else max 0 (K - S)))
    ∧ (S ≤ 0 ∨ K ≤ 0 →
        calculate_moneyness S K ty = ⟨0, false, false, false, 0⟩) := by
  constructor
  · intro hS hK
    have hcond : ¬ (S ≤ 0 ∨ K ≤ 0) := by push_neg; exact ⟨hS, hK⟩
    cases ty <;>
      simp [calculate_moneyness, hcond, Bool.and_eq_true, decide_eq_true_iff]
  · intro h
    cases ty <;> simp [calculate_moneyness, h]

/-- C8 witness: the spec's worked example `classify(110, 100, call)` — in
the money with intrinsic value 10. -/
theorem moneyness_classification_witness :
    (calculate_moneyness 110 100 OptionType.call).is_itm = true
    ∧ (calculate_moneyness 110 100 OptionType.call).intrinsic_value = 10 := by
  obtain ⟨_, hitm, _, _, hintr⟩ :=
    (moneyness_classification 110 100 OptionType.call).1
      (by norm_num) (by norm_num)
  constructor
  · exact hitm.mpr (Or.inl ⟨rfl, by norm_num⟩)
  · rw [hintr]
    norm_num

/-! ## Claim C9 -/

/-- C9: put-call parity — for every valid input the call price minus the put
price equals `S - K·e^(-rT)`, within the claimed `1e-6` tolerance (the model
satisfies it exactly). -/
theorem put_call_parity (S K T r sigma : ℝ) (hS : 0 < S) (hK : 0 < K)
    (hT : 0 < T) (hsig : 0 < sigma) :
    |black_scholes_price S K T r sigma .call
      - black_scholes_price S K T r sigma .put
      - (S - K * Real.exp (-r * T))| ≤ 1/1000000 := by
  rw [bs_price_call_eq S K T r sigma hT, bs_price_put_eq S K T r sigma hT]
  have h1 := normCdf_add_neg (bs_d1 S K T r sigma)
  have h2 := normCdf_add_neg (bs_d1 S K T r sigma - sigma * Real.sqrt T)
  have key : S * normCdf (bs_d1 S K T r sigma)
      - K * Real.exp (-r * T)
        * normCdf (bs_d1 S K T r sigma - sigma * Real.sqrt T)
      - (K * Real.exp (-r * T)
          * normCdf (-(bs_d1 S K T r sigma - sigma * Real.sqrt T))
        - S * normCdf (-bs_d1 S K T r sigma))
      - (S - K * Real.exp (-r * T)) = 0 := by
    linear_combination S * h1 - K * Real.exp (-r * T) * h2
  rw [key]
  norm_num

/-- C9 witness: parity at the concrete valid input
`(S, K, T, r, sigma) = (100, 95, 1, 1/20, 1/5)`. -/
theorem put_call_parity_witness :
    |black_scholes_price 100 95 1 (1/20) (1/5) .call
      - black_scholes_price 100 95 1 (1/20) (1/5) .put
      - (100 - 95 * Real.exp (-(1/20) * 1))| ≤ 1/1000000 :=
  put_call_parity 100 95 1 (1/20) (1/5) (by norm_num) (by norm_num)
    (by norm_num) (by norm_num)

/-! ## Claim C10 -/

/-- C10: for every spread that passes validation (same-type legs with the
required strike ordering) and at least one contract, every point of the P&L
curve lies between `-max_loss` and `max_profit` inclusive, and on the fully
out-of-the-money side (price at or below the sell strike for a call spread,
at or above it for a put spread) the P&L equals `max_profit`. -/
theorem spread_pnl_bounded (ty : OptionType) (ss bs sp bp c price : ℚ)
    (hv : validate_spread_parameters ss bs ty ty = true) (hc : 1 ≤ c) :
    (-(spread_max_loss ty ss bs sp bp c)
        ≤ spread_pnl ty ss bs sp bp c price
      ∧ spread_pnl ty ss bs sp bp c price ≤ spread_max_profit sp bp c)
    ∧ (ty = .call → price ≤ ss →
        spread_pnl ty ss bs sp bp c price = spread_max_profit sp bp c)
    ∧ (ty = .put → ss ≤ price →
        spread_pnl ty ss bs sp bp c price = spread_max_profit sp bp c) := by
  have hc0 : (0:ℚ) ≤ c := by linarith
  cases ty with
  | call =>
    have hss : ss < bs := by
      simpa [validate_spread_parameters] using hv
    refine ⟨⟨?_, ?_⟩, ?_, ?_⟩
    · simp only [spread_max_loss, spread_pnl, net_credit]
      have h1 : -(bs - ss - (sp - bp))
          ≤ sp - bp - max 0 (price - ss) + max 0 (price - bs) := by
        have e1 : max 0 (price - ss) ≤ max 0 (price - bs) + (bs - ss) := by
          apply max_le
          · have := le_max_left (0:ℚ) (price - bs)
            linarith
          · have := le_max_right (0:ℚ) (price - bs)
            linarith
        linarith
      have h2 := mul100c_le _ _ c h1 hc0
      have e2 : -((bs - ss - (sp - bp)) * 100 * c)
          = -(bs - ss - (sp - bp)) * 100 * c := by ring
      rw [e2]
      exact h2
    · simp only [spread_pnl, spread_max_profit, net_credit]
      have h1 : sp - bp - max 0 (price - ss) + max 0 (price - bs)
          ≤ sp - bp := by
        have := max_le_max (le_refl (0:ℚ))
          (by linarith : price - bs ≤ price - ss)
        linarith
      exact mul100c_le _ _ c h1 hc0
    · intro _ hpr
      simp only [spread_pnl, spread_max_profit, net_credit]
      rw [max_eq_left (by linarith), max_eq_left (by linarith)]
      ring
    · intro h
      exact absurd h (by simp)
  | put =>
    have hss : bs < ss := by
      simpa [validate_spread_parameters] using hv
    refine ⟨⟨?_, ?_⟩, ?_, ?_⟩
    · simp only [spread_max_loss, spread_pnl, net_credit]
      have h1 : -(ss - bs - (sp - bp))
          ≤ sp - bp - max 0 (ss - price) + max 0 (bs - price) := by
        have e1 : max 0 (ss - price) ≤ max 0 (bs - price) + (ss - bs) := by
          apply max_le
          · have := le_max_left (0:ℚ) (bs - price)
            linarith
          · have := le_max_right (0:ℚ) (bs - price)
            linarith
        linarith
      have h2 := mul100c_le _ _ c h1 hc0
      have e2 : -((ss - bs - (sp - bp)) * 100 * c)
          = -(ss - bs - (sp - bp)) * 100 * c := by ring
      rw [e2]
      exact h2
    · simp only [spread_pnl, spread_max_profit, net_credit]
      have h1 : sp - bp - max 0 (ss - price) + max 0 (bs - price)
          ≤ sp - bp := by
        have := max_le_max (le_refl (0:ℚ))
          (by linarith : bs - price ≤ ss - price)
        linarith
      exact mul100c_le _ _ c h1 hc0
    · intro h
      exact absurd h (by simp)
    · intro _ hpr
      simp only [spread_pnl, spread_max_profit, net_credit]
      rw [max_eq_left (by linarith), max_eq_left (by linarith)]
      ring

/-- C10 witness: the spec's bear call spread (sell 100C at 2.00, buy 105C at
0.50, one contract) evaluated at an out-of-the-money price of 95: the P&L
equals the max profit of 150 and respects the `[-350, 150]` envelope. -/
theorem spread_pnl_bounded_witness :
    spread_pnl .call 100 105 2 (1/2) 1 95 = spread_max_profit 2 (1/2) 1
    ∧ -(spread_max_loss .call 100 105 2 (1/2) 1)
        ≤ spread_pnl .call 100 105 2 (1/2) 1 95 := by
  have h := spread_pnl_bounded .call 100 105 2 (1/2) 1 95
    (by norm_num [validate_spread_parameters]) le_rfl
  exact ⟨h.2.1 rfl (by norm_num), h.1.1⟩

end OptionsViewer
